import Mathlib

/-!
Verification development for the ai-whiteboard core subsystem:
the resilient LLM-output-to-diagram pipeline (`generateDiagramWithNim`,
`lenientDiagramSchema`, `extractJsonFromText`, `repairJson`) and the
layout/geometry synthesizer (`buildNodeLayout`, `buildExcalidrawElements`).

Shallow embedding notes:
* JS values reaching the pipeline after `JSON.parse` are modeled by the
  inductive type `Json`.  JSON numbers are modeled as integers (`Int`);
  fractional parts and exponents are accepted syntactically by the parser
  but not represented — no claim in scope involves non-integer numbers.
* `JSON.parse` is a platform primitive, modeled by `jsonParse0`, a
  fuel-based recursive-descent parser of the JSON grammar (object, array,
  string with escapes, number, true/false/null, whole-input check,
  last-key-wins duplicate keys as in JS).
* The brace characters are written with `\x7b` / `\x7d` escapes throughout.
-/

set_option maxRecDepth 10000

def lbrace : Char := '\x7b'
def rbrace : Char := '\x7d'
def backtick : Char := '\x60'

inductive Json where
  | null
  | bool (b : Bool)
  | num (n : Int)
  | str (s : String)
  | arr (xs : List Json)
  | obj (fields : List (String × Json))
deriving Repr

/-- JS object field access `o[k]` on an object built by `JSON.parse`:
with duplicate keys, the last binding wins. -/
def lastAssoc? {α : Type} : List (String × α) → String → Option α
  | [], _ => none
  | (k', v) :: rest, k =>
    match lastAssoc? rest k with
    | some r => some r
    | none => if k' = k then some v else none

/-- JSON structural whitespace (space, tab, line feed, carriage return). -/
def isJsonWs (c : Char) : Bool :=
  c = ' ' || c = '\t' || c = '\n' || c = '\r'

def hexVal (c : Char) : Option Nat :=
  if '0' ≤ c ∧ c ≤ '9' then some (c.toNat - 48)
  else if 'a' ≤ c ∧ c ≤ 'f' then some (c.toNat - 87)
  else if 'A' ≤ c ∧ c ≤ 'F' then some (c.toNat - 55)
  else none

/-- Body of a JSON string literal after the opening quote: collect chars
until the closing quote, decoding escapes.  Control characters are
invalid.  (`\u` escapes decode to the code point; surrogate pairs are not
recombined — irrelevant to any claim in scope.) -/
def parseJStrAux : List Char → List Char → Option (List Char × List Char)
  | [], _ => none
  | c :: rest, acc =>
    if c = '"' then some (acc.reverse, rest)
    else if c = '\\' then
      match rest with
      | [] => none
      | e :: rest2 =>
        if e = '"' then parseJStrAux rest2 ('"' :: acc)
        else if e = '\\' then parseJStrAux rest2 ('\\' :: acc)
        else if e = '/' then parseJStrAux rest2 ('/' :: acc)
        else if e = 'b' then parseJStrAux rest2 ('\x08' :: acc)
        else if e = 'f' then parseJStrAux rest2 ('\x0c' :: acc)
        else if e = 'n' then parseJStrAux rest2 ('\n' :: acc)
        else if e = 'r' then parseJStrAux rest2 ('\r' :: acc)
        else if e = 't' then parseJStrAux rest2 ('\t' :: acc)
        else if e = 'u' then
          match rest2 with
          | h1 :: h2 :: h3 :: h4 :: rest3 =>
            match hexVal h1, hexVal h2, hexVal h3, hexVal h4 with
            | some a, some b, some c2, some d =>
              parseJStrAux rest3 (Char.ofNat (((a * 16 + b) * 16 + c2) * 16 + d) :: acc)
            | _, _, _, _ => none
          | _ => none
        else none
    else if c.toNat < 32 then none
    else parseJStrAux rest (c :: acc)

/-- A JSON string literal including the opening quote. -/
def parseJString (cs : List Char) : Option (String × List Char) :=
  match cs with
  | '"' :: rest => (parseJStrAux rest []).map (fun p => (String.mk p.1, p.2))
  | _ => none

def takeDigits : Nat → List Char → Nat × List Char
  | n, [] => (n, [])
  | n, c :: rest =>
    if c.isDigit then takeDigits (n * 10 + (c.toNat - 48)) rest
    else (n, c :: rest)

def digitStart : List Char → Bool
  | [] => false
  | c :: _ => c.isDigit

/-- Optional exponent part of a JSON number (value not represented). -/
def parseJExp (cs : List Char) : Option (List Char) :=
  match cs with
  | c :: rest =>
    if c = 'e' ∨ c = 'E' then
      match rest with
      | s :: rest2 =>
        if s = '+' ∨ s = '-' then
          if digitStart rest2 then some (takeDigits 0 rest2).2 else none
        else if s.isDigit then some (takeDigits 0 rest).2
        else none
      | [] => none
    else some cs
  | [] => some cs

/-- Optional fraction then exponent (fraction digits not represented). -/
def parseJFrac (cs : List Char) : Option (List Char) :=
  match cs with
  | '.' :: rest =>
    if digitStart rest then parseJExp (takeDigits 0 rest).2 else none
  | _ => parseJExp cs

/-- JSON number grammar: optional minus, `0` or nonzero-led digits,
optional fraction/exponent.  The represented value is the signed integer
part (see module comment). -/
def parseJNumber (cs : List Char) : Option (Json × List Char) :=
  let signed : Bool × List Char :=
    match cs with
    | '-' :: r => (true, r)
    | _ => (false, cs)
  match signed.2 with
  | '0' :: r =>
    if digitStart r then none
    else (parseJFrac r).map (fun rest => (Json.num 0, rest))
  | c :: r =>
    if c.isDigit then
      let p := takeDigits (c.toNat - 48) r
      (parseJFrac p.2).map (fun rest =>
        (Json.num (if signed.1 then -(p.1 : Int) else (p.1 : Int)), rest))
    else none
  | [] => none

inductive PMode where
  | value
  | objItems (acc : List (String × Json))
  | arrItems (acc : List Json)

/-- Fuel-based recursive-descent JSON parser (one step per fuel unit).
`PMode.value` parses a single value; `objItems`/`arrItems` parse the
remaining members of a composite whose opening bracket (and the fact that
it is nonempty) was already consumed. -/
def parseStep : Nat → PMode → List Char → Option (Json × List Char)
  | 0, _, _ => none
  | Nat.succ f, PMode.value, cs =>
    match cs.dropWhile isJsonWs with
    | [] => none
    | c :: rest =>
      if c = lbrace then
        match rest.dropWhile isJsonWs with
        | [] => none
        | b :: r2 =>
          if b = rbrace then some (Json.obj [], r2)
          else parseStep f (PMode.objItems []) (b :: r2)
      else if c = '[' then
        match rest.dropWhile isJsonWs with
        | [] => none
        | b :: r2 =>
          if b = ']' then some (Json.arr [], r2)
          else parseStep f (PMode.arrItems []) (b :: r2)
      else if c = '"' then
        (parseJString (c :: rest)).map (fun p => (Json.str p.1, p.2))
      else
        match c :: rest with
        | 't' :: 'r' :: 'u' :: 'e' :: r => some (Json.bool true, r)
        | 'f' :: 'a' :: 'l' :: 's' :: 'e' :: r => some (Json.bool false, r)
        | 'n' :: 'u' :: 'l' :: 'l' :: r => some (Json.null, r)
        | other => parseJNumber other
  | Nat.succ f, PMode.objItems acc, cs =>
    match parseJString (cs.dropWhile isJsonWs) with
    | none => none
    | some (key, r1) =>
      match r1.dropWhile isJsonWs with
      | ':' :: r2 =>
        match parseStep f PMode.value r2 with
        | none => none
        | some (v, r3) =>
          match r3.dropWhile isJsonWs with
          | ',' :: r4 => parseStep f (PMode.objItems (acc ++ [(key, v)])) r4
          | b :: r4 =>
            if b = rbrace then some (Json.obj (acc ++ [(key, v)]), r4) else none
          | [] => none
      | _ => none
  | Nat.succ f, PMode.arrItems acc, cs =>
    match parseStep f PMode.value cs with
    | none => none
    | some (v, r1) =>
      match r1.dropWhile isJsonWs with
      | ',' :: r2 => parseStep f (PMode.arrItems (acc ++ [v])) r2
      | b :: r2 => if b = ']' then some (Json.arr (acc ++ [v]), r2) else none
      | [] => none

/-- Model of `JSON.parse`: parse one value, then require only whitespace
to remain. -/
def jsonParse0 (cs : List Char) : Option Json :=
  match parseStep (2 * cs.length + 8) PMode.value cs with
  | some (v, rest) => if rest.dropWhile isJsonWs = [] then some v else none
  | none => none

def jsonParse (s : String) : Option Json :=
  jsonParse0 s.toList

/-!
## Shared data model (src/types/diagram.ts)
-/

structure DiagramNode where
  id : String
  label : String
deriving Repr, DecidableEq

/-- `from`/`to` in the source; `from` is a Lean keyword, so the fields are
named `fromId`/`toId` here. -/
structure DiagramEdge where
  fromId : String
  toId : String
deriving Repr, DecidableEq

structure Diagram where
  nodes : List DiagramNode
  edges : List DiagramEdge
deriving Repr, DecidableEq

def emptyDiagram : Diagram := { nodes := [], edges := [] }

/-!
## Strict schema (`diagramSchema` in src/types/diagram.ts)

`z.string().min(1)` / `.min(1).max(200)` string bounds, `.max(200)` /
`.max(400)` array caps.  String length is modeled with `String.length`
(code points); zod counts UTF-16 units, which coincides on the
ASCII-only data of every claim in scope.
-/

def strictNodeParse (v : Json) : Option DiagramNode :=
  match v with
  | Json.obj fs =>
    match lastAssoc? fs "id", lastAssoc? fs "label" with
    | some (Json.str i), some (Json.str l) =>
      if 1 ≤ i.length ∧ 1 ≤ l.length ∧ l.length ≤ 200 then
        some { id := i, label := l }
      else none
    | _, _ => none
  | _ => none

def strictEdgeParse (v : Json) : Option DiagramEdge :=
  match v with
  | Json.obj fs =>
    match lastAssoc? fs "from", lastAssoc? fs "to" with
    | some (Json.str f), some (Json.str t) =>
      if 1 ≤ f.length ∧ 1 ≤ t.length then some { fromId := f, toId := t }
      else none
    | _, _ => none
  | _ => none

def strictNodeList : List Json → Option (List DiagramNode)
  | [] => some []
  | v :: rest =>
    match strictNodeParse v, strictNodeList rest with
    | some n, some ns => some (n :: ns)
    | _, _ => none

def strictEdgeList : List Json → Option (List DiagramEdge)
  | [] => some []
  | v :: rest =>
    match strictEdgeParse v, strictEdgeList rest with
    | some e, some es => some (e :: es)
    | _, _ => none

/-- `diagramSchema.safeParse` applied to a raw JSON value (the stage-7
"strict as last resort" path). -/
def strictParseJson (v : Json) : Option Diagram :=
  match v with
  | Json.obj fs =>
    match lastAssoc? fs "nodes", lastAssoc? fs "edges" with
    | some (Json.arr ns), some (Json.arr es) =>
      if ns.length ≤ 200 ∧ es.length ≤ 400 then
        match strictNodeList ns, strictEdgeList es with
        | some ns', some es' => some { nodes := ns', edges := es' }
        | _, _ => none
      else none
    | _, _ => none
  | _ => none

def strictCheckNode (n : DiagramNode) : Bool :=
  1 ≤ n.id.length && 1 ≤ n.label.length && n.label.length ≤ 200

def strictCheckEdge (e : DiagramEdge) : Bool :=
  1 ≤ e.fromId.length && 1 ≤ e.toId.length

/-- `diagramSchema.safeParse(lenientResult.data)`: the lenient stage's
output already has exactly the strict shape, so strict validation of it
reduces to these bound checks (and the parsed data is unchanged). -/
def strictCheckDiagram (d : Diagram) : Bool :=
  d.nodes.length ≤ 200 && d.edges.length ≤ 400 &&
    d.nodes.all strictCheckNode && d.edges.all strictCheckEdge

/-!
## Lenient schema (`lenientNodeSchema`, `lenientEdgeSchema`,
`lenientDiagramSchema` in the extractor module)
-/

/-- `z.union([z.string(), z.number()]).transform(String)`:
strings pass through, numbers are coerced with JS `String(·)`. -/
def coerceStr (v : Json) : Option String :=
  match v with
  | Json.str s => some s
  | Json.num n => some (toString n)
  | _ => none

/-- An optional string-or-number field: absent is `none`-present (JS
`undefined`), present values must coerce or the element schema fails. -/
def optCoerce (fs : List (String × Json)) (k : String) : Option (Option String) :=
  match lastAssoc? fs k with
  | none => some none
  | some j => (coerceStr j).map some

/-- JS `a || b` on strings where the empty string is falsy. -/
def jsOrStr (a b : String) : String := if a = "" then b else a

/-- JS truthiness of `string | undefined` (undefined and "" are falsy). -/
def optPart (o : Option String) : String := o.getD ""

def lenientNodeParse (v : Json) : Option DiagramNode :=
  match v with
  | Json.obj fs =>
    match lastAssoc? fs "id" with
    | none => none
    | some idJ =>
      match coerceStr idJ with
      | none => none
      | some i =>
        -- `label` is `.optional().default("")`: absent becomes "".
        match optCoerce fs "label" with
        | none => none
        | some labelO =>
          match optCoerce fs "name", optCoerce fs "text", optCoerce fs "title" with
          | some nameO, some textO, some titleO =>
            -- transform: label || name || text || title || String(id)
            some { id := i,
                   label := jsOrStr (optPart labelO)
                              (jsOrStr (optPart nameO)
                                (jsOrStr (optPart textO)
                                  (jsOrStr (optPart titleO) i))) }
          | _, _, _ => none
  | _ => none

def lenientEdgeParse (v : Json) : Option DiagramEdge :=
  match v with
  | Json.obj fs =>
    match optCoerce fs "from", optCoerce fs "to",
          optCoerce fs "source", optCoerce fs "target" with
    | some fromO, some toO, some sourceO, some targetO =>
      -- transform: from || source || "", to || target || ""
      some { fromId := jsOrStr (optPart fromO) (optPart sourceO),
             toId := jsOrStr (optPart toO) (optPart targetO) }
    | _, _, _, _ => none
  | _ => none

def lenientNodeList : List Json → Option (List DiagramNode)
  | [] => some []
  | v :: rest =>
    match lenientNodeParse v, lenientNodeList rest with
    | some n, some ns => some (n :: ns)
    | _, _ => none

def lenientEdgeList : List Json → Option (List DiagramEdge)
  | [] => some []
  | v :: rest =>
    match lenientEdgeParse v, lenientEdgeList rest with
    | some e, some es => some (e :: es)
    | _, _ => none

/-- The `z.object` part of `lenientDiagramSchema` before its final
transform: `nodes`/`edges` default to `[]` when absent, must be arrays of
elements accepted by the element schemas when present. -/
def lenientRawParts (v : Json) : Option (List DiagramNode × List DiagramEdge) :=
  match v with
  | Json.obj fs =>
    match (match lastAssoc? fs "nodes" with
           | none => some []
           | some (Json.arr xs) => lenientNodeList xs
           | some _ => none) with
    | none => none
    | some ns =>
      match (match lastAssoc? fs "edges" with
             | none => some []
             | some (Json.arr xs) => lenientEdgeList xs
             | some _ => none) with
      | none => none
      | some es => some (ns, es)
  | _ => none

def nodeKeep (n : DiagramNode) : Bool := !(n.id == "") && !(n.label == "")

def edgeKeep (e : DiagramEdge) : Bool := !(e.fromId == "") && !(e.toId == "")

/-- `lenientDiagramSchema.safeParse`: raw shape, then the final transform
filtering out nodes/edges with falsy (empty) required strings. -/
def lenientDiagramParse (v : Json) : Option Diagram :=
  (lenientRawParts v).map (fun p =>
    { nodes := p.1.filter nodeKeep, edges := p.2.filter edgeKeep })

/-!
## Text helpers of the extractor module

`extractJsonFromText`, `repairJson`, `tryUnwrapStringifiedJson`,
`getMessageContent`.  JS `\s` / `String.trim` whitespace is modeled by
`isJsWs` (the common members of both sets; exotic Unicode spaces beyond
these never appear in the data of any claim).
-/

def isJsWs (c : Char) : Bool :=
  c = ' ' || c = '\t' || c = '\n' || c = '\r' || c = '\x0b' || c = '\x0c' ||
    c = '\u00A0' || c = '\uFEFF' || c = '\u2028' || c = '\u2029'

/-- JS `String.prototype.trim`. -/
def jsTrim (cs : List Char) : List Char :=
  ((cs.dropWhile isJsWs).reverse.dropWhile isJsWs).reverse

def jsTrimStr (s : String) : String := String.mk (jsTrim s.toList)

/-- Case-insensitive `json` prefix test (the `(?:json)?` with the `i`
flag). -/
def ciJson (cs : List Char) : Bool :=
  match cs with
  | a :: b :: c :: d :: _ =>
    a.toLower = 'j' && b.toLower = 's' && c.toLower = 'o' && d.toLower = 'n'
  | _ => false

/-- Split at the leftmost occurrence of a triple backtick: the characters
before it and the characters after it (the lazy `([\s\S]*?)` up to the
closing fence). -/
def splitAtTicks : List Char → Option (List Char × List Char)
  | [] => none
  | '\x60' :: '\x60' :: '\x60' :: rest => some ([], rest)
  | c :: rest => (splitAtTicks rest).map (fun p => (c :: p.1, p.2))

/-- One pass of the global regex
`rawText.replace(/\x60\x60\x60(?:json)?\s*([\s\S]*?)\x60\x60\x60/gi, "$1")`:
at each opening fence, optionally consume a case-insensitive `json` tag,
greedily consume whitespace, then capture lazily up to the next closing
fence; a fence with no closing counterpart fails to match and scanning
advances one character, exactly as the regex engine does. -/
def stripFencesAux : Nat → List Char → List Char
  | 0, cs => cs
  | Nat.succ f, cs =>
    match cs with
    | '\x60' :: '\x60' :: '\x60' :: rest3 =>
      let afterTag := if ciJson rest3 then rest3.drop 4 else rest3
      let afterWs := afterTag.dropWhile isJsWs
      match splitAtTicks afterWs with
      | some (cap, after) => cap ++ stripFencesAux f after
      | none => '\x60' :: stripFencesAux f ('\x60' :: '\x60' :: rest3)
    | [] => []
    | c :: rest => c :: stripFencesAux f rest

def stripFences (cs : List Char) : List Char :=
  stripFencesAux (cs.length + 1) cs

/-- Step 1 of `extractJsonFromText`: strip code fences, then trim. -/
def normalizeText (s : String) : List Char :=
  jsTrim (stripFences s.toList)

/-- The per-character depth update of the brace scan: `depth++` on
`\x7b`, `depth--` on `\x7d` (the source applies the two conditional
updates in sequence; their net effect on the depth is this delta). -/
def braceDelta (c : Char) : Int :=
  (if c = lbrace then 1 else 0) - (if c = rbrace then 1 else 0)

/-- The brace-depth scan of `extractJsonFromText`: starting from the
first `\x7b`, update the depth per character, stop at the index where
depth first becomes zero. -/
def findBraceEnd : List Char → Int → Nat → Option Nat
  | [], _, _ => none
  | c :: rest, depth, i =>
    if depth + braceDelta c = 0 then some i
    else findBraceEnd rest (depth + braceDelta c) (i + 1)

def noJsonMsg : String := "No JSON object found in model response."

def unbalancedMsg : String := "Unbalanced braces in model response."

/-- `extractJsonFromText`: strip fences and trim, locate the first
`\x7b`, scan to the matching `\x7d` by brace counting; errors are thrown
in the source and modeled as `Except.error` here. -/
def extractJsonFromText (s : String) : Except String (List Char) :=
  match (normalizeText s).dropWhile (fun c => !(c == lbrace)) with
  | [] => Except.error noJsonMsg
  | a :: rest =>
    match findBraceEnd (a :: rest) 0 0 with
    | none => Except.error unbalancedMsg
    | some e => Except.ok ((a :: rest).take (e + 1))

/-- Does `/,\s*([}\]])/` match anywhere (the `.test(...)` call)?  A comma
matches when the maximal whitespace run after it is followed by a closing
brace or bracket. -/
def hasTrailingCommaPat : List Char → Bool
  | [] => false
  | c :: rest =>
    if c = ',' then
      match rest.dropWhile isJsWs with
      | b :: _ =>
        if b = rbrace ∨ b = ']' then true else hasTrailingCommaPat rest
      | [] => hasTrailingCommaPat rest
    else hasTrailingCommaPat rest

/-- The global replacement `.replace(/,\s*([}\]])/g, "$1")`: left-to-right
scan; at each match the comma and whitespace are dropped and scanning
resumes after the closing bracket; at a failed attempt scanning advances
one character. -/
def removeTrailingCommasAux : Nat → List Char → List Char
  | 0, cs => cs
  | Nat.succ f, cs =>
    match cs with
    | [] => []
    | c :: rest =>
      if c = ',' then
        match rest.dropWhile isJsWs with
        | b :: rest2 =>
          if b = rbrace ∨ b = ']' then b :: removeTrailingCommasAux f rest2
          else c :: removeTrailingCommasAux f rest
        | [] => c :: removeTrailingCommasAux f rest
      else c :: removeTrailingCommasAux f rest

def removeTrailingCommas (cs : List Char) : List Char :=
  removeTrailingCommasAux (cs.length + 1) cs

def repairMsg : String := "removed trailing commas"

/-- `repairJson`: apply the trailing-comma removal when the pattern
occurs, reporting which repair was applied. -/
def repairJson (raw : List Char) : List Char × Option String :=
  if hasTrailingCommaPat raw then (removeTrailingCommas raw, some repairMsg)
  else (raw, none)

/-- `tryUnwrapStringifiedJson`: a top-level string that itself parses as
JSON is unwrapped; otherwise the value is kept. -/
def tryUnwrapStringifiedJson (v : Json) : Json :=
  match v with
  | Json.str s =>
    match jsonParse s with
    | some inner => inner
    | none => Json.str s
  | _ => v

/-!
## The extractor pipeline (`generateDiagramWithNim`)

The single provider call is modeled by a `ProviderOutcome` input: the
function performs exactly one call, and its transport-level results
(timeout/abort, non-success status, response body as parsed JSON) are the
environment of the invocation.  Thrown exceptions are modeled as
`Except.error`.  zod issue strings are engine-rendered text and are
modeled by fixed placeholder messages (only their presence/absence is
claim-relevant).
-/

structure NimDiagnostics where
  rawContent : String
  extractedJson : Option String
  parseError : Option String
  validationError : Option String
  repairApplied : Option String
  usedFallback : Bool
deriving Repr, DecidableEq

def initialDiagnostics (content : String) : NimDiagnostics :=
  { rawContent := content, extractedJson := none, parseError := none,
    validationError := none, repairApplied := none, usedFallback := false }

def parseFailMsg : String := "JSON parse failed: SyntaxError"

def strictIssuesMsg : String := "Strict validation issues: issues"

def lenientIssuesMsg : String := "lenient validation issues"

/-- Stage 5 of the pipeline: `JSON.parse` with one repair attempt and one
retry.  Returns the parsed value (if any), the repair recorded in
diagnostics, and the parse error recorded on total failure. -/
def parseStage (block : List Char) :
    Option Json × Option String × Option String :=
  match jsonParse0 block with
  | some v => (some v, none, none)
  | none =>
    match jsonParse0 (repairJson block).1 with
    | some v => (some v, (repairJson block).2, none)
    | none => (none, (repairJson block).2, some parseFailMsg)

/-- Stages 6–8: lenient coercion, strict re-validation of the lenient
result, strict-direct as last resort, empty fallback. -/
def validateStage (j : Json) (g : NimDiagnostics) : Diagram × NimDiagnostics :=
  match lenientDiagramParse j with
  | some d =>
    if strictCheckDiagram d then (d, g)
    else (d, { g with validationError := some strictIssuesMsg })
  | none =>
    match strictParseJson j with
    | some d => (d, g)
    | none =>
      (emptyDiagram,
       { g with validationError := some lenientIssuesMsg, usedFallback := true })

/-- Stages 2–8 of `generateDiagramWithNim`, from the extracted message
content onward: the part of the function that never throws. -/
def processContent (content : String) : Diagram × NimDiagnostics :=
  if jsTrimStr content = "" then
    (emptyDiagram, { initialDiagnostics content with usedFallback := true })
  else
    match extractJsonFromText content with
    | Except.error msg =>
      (emptyDiagram,
       { initialDiagnostics content with
           parseError := some msg, usedFallback := true })
    | Except.ok block =>
      match parseStage block with
      | (none, rep, perr) =>
        (emptyDiagram,
         { initialDiagnostics content with
             extractedJson := some (String.mk block),
             repairApplied := rep, parseError := perr, usedFallback := true })
      | (some v, rep, _) =>
        validateStage (tryUnwrapStringifiedJson v)
          { initialDiagnostics content with
              extractedJson := some (String.mk block), repairApplied := rep }

/-!
### Provider envelope (`nimResponseSchema`) and message content
-/

structure ContentPart where
  type : String
  text : Option String
deriving Repr, DecidableEq

inductive MsgContent where
  | str (s : String)
  | parts (ps : List ContentPart)
deriving Repr, DecidableEq

def parseContentPart (v : Json) : Option ContentPart :=
  match v with
  | Json.obj fs =>
    match lastAssoc? fs "type" with
    | some (Json.str t) =>
      match lastAssoc? fs "text" with
      | none => some { type := t, text := none }
      | some (Json.str s) => some { type := t, text := some s }
      | some _ => none
    | _ => none
  | _ => none

def parseContentParts : List Json → Option (List ContentPart)
  | [] => some []
  | v :: rest =>
    match parseContentPart v, parseContentParts rest with
    | some p, some ps => some (p :: ps)
    | _, _ => none

def parseChoice (v : Json) : Option MsgContent :=
  match v with
  | Json.obj fs =>
    match lastAssoc? fs "message" with
    | some (Json.obj ms) =>
      match lastAssoc? ms "content" with
      | some (Json.str s) => some (MsgContent.str s)
      | some (Json.arr xs) => (parseContentParts xs).map MsgContent.parts
      | _ => none
    | _ => none
  | _ => none

def parseChoices : List Json → Option (List MsgContent)
  | [] => some []
  | v :: rest =>
    match parseChoice v, parseChoices rest with
    | some c, some cs => some (c :: cs)
    | _, _ => none

/-- `nimResponseSchema.safeParse`: an object with a `choices` array of at
least one well-shaped choice. -/
def parseEnvelope (v : Json) : Option (List MsgContent) :=
  match v with
  | Json.obj fs =>
    match lastAssoc? fs "choices" with
    | some (Json.arr xs) =>
      match parseChoices xs with
      | some cs => if cs.length ≥ 1 then some cs else none
      | none => none
    | _ => none
  | _ => none

/-- `getMessageContent`: a plain string passes through unchanged; a parts
array keeps the text of `type === "text"` parts, joins with newlines and
trims. -/
def getMessageContent (c : MsgContent) : String :=
  match c with
  | MsgContent.str s => s
  | MsgContent.parts ps =>
    jsTrimStr (String.intercalate "\n"
      (ps.map (fun p => if p.type = "text" then p.text.getD "" else "")))

/-!
### The exported function
-/

inductive ProviderOutcome where
  | timeout
  | httpError (status : Nat) (body : String)
  | ok (envelope : Json)

def defaultModel : String := "meta/llama-3.1-70b-instruct"

structure NimResult where
  diagram : Diagram
  modelUsed : String
  diagnostics : NimDiagnostics
deriving Repr, DecidableEq

def missingKeyMsg : String := "NVIDIA_NIM_API_KEY is missing."

def abortMsg : String := "This operation was aborted"

def badEnvelopeMsg : String := "Unexpected response shape from NVIDIA NIM."

/-- `generateDiagramWithNim`: missing credentials, transport failure,
timeout and a malformed envelope throw; everything downstream of a valid
envelope is the non-throwing `processContent`. -/
def generateDiagramWithNim (apiKey : Option String)
    (outcome : ProviderOutcome) (modelParam : Option String) :
    Except String NimResult :=
  match apiKey with
  | none => Except.error missingKeyMsg
  | some _ =>
    let model :=
      match modelParam with
      | some m => if jsTrimStr m = "" then defaultModel else jsTrimStr m
      | none => defaultModel
    match outcome with
    | ProviderOutcome.timeout => Except.error abortMsg
    | ProviderOutcome.httpError status body =>
      Except.error ("NIM request failed (" ++ toString status ++ "): " ++ body)
    | ProviderOutcome.ok envelope =>
      match parseEnvelope envelope with
      | none => Except.error badEnvelopeMsg
      | some cs =>
        let content := getMessageContent (cs.headD (MsgContent.str ""))
        let r := processContent content
        Except.ok { diagram := r.1, modelUsed := model, diagnostics := r.2 }

/-!
## Layout & geometry synthesizer

Geometry here is integer-valued: every coordinate the source computes
with these constants is an exact integer (the only divisions are of the
even constants 120 and 30 by 2).  The per-element random identity and
versioning metadata (`createBaseElement`) never affects geometry or
topology and is omitted from the primitive model.
-/

def NODE_WIDTH : Int := 220

def NODE_HEIGHT : Int := 120

def GRID_GAP_X : Int := 280

def GRID_GAP_Y : Int := 220

def GRID_START_X : Int := 80

def GRID_START_Y : Int := 80

structure NodeLayout where
  x : Int
  y : Int
  width : Int
  height : Int
deriving Repr, DecidableEq

/-- `Math.ceil(Math.sqrt(n))` on a natural number. -/
def ceilSqrt (n : Nat) : Nat :=
  if Nat.sqrt n * Nat.sqrt n = n then Nat.sqrt n else Nat.sqrt n + 1

/-- `Math.max(1, Math.ceil(Math.sqrt(nodes.length)))`. -/
def columns (n : Nat) : Nat := max 1 (ceilSqrt n)

/-- The grid cell of the node at 0-based index `i` among `total` nodes. -/
def cellFor (total i : Nat) : NodeLayout :=
  { x := GRID_START_X + (i % columns total : Nat) * GRID_GAP_X,
    y := GRID_START_Y + (i / columns total : Nat) * GRID_GAP_Y,
    width := NODE_WIDTH,
    height := NODE_HEIGHT }

/-- The `forEach` of `buildNodeLayout`: successive `map[node.id] = ...`
writes, modeled as an association list read with last-write-wins
(`lastAssoc?`, the same access JS objects provide). -/
def buildNodeLayoutAux (total : Nat) : Nat → List DiagramNode →
    List (String × NodeLayout)
  | _, [] => []
  | i, n :: rest => (n.id, cellFor total i) :: buildNodeLayoutAux total (i + 1) rest

def buildNodeLayout (nodes : List DiagramNode) : List (String × NodeLayout) :=
  buildNodeLayoutAux nodes.length 0 nodes

/-- The geometry-bearing fields of the three element kinds produced by
`createRectangleElement`, `createLabelElement`, `createArrowElement`. -/
inductive Primitive where
  | rect (sourceNodeId : String) (x y width height : Int)
  | textLabel (content : String) (x y width height : Int)
  | arrow (fromId toId : String) (x y dx dy : Int)
deriving Repr, DecidableEq

/-- `createRectangleElement` and `createLabelElement` for one node at its
resolved layout: the label is inset 12px, vertically centered (text
height 24 × 1.25 = 30), width clamped between 80 and width − 24 around
10px per character. -/
def nodePrimsAt (n : DiagramNode) (l : NodeLayout) : List Primitive :=
  [Primitive.rect n.id l.x l.y l.width l.height,
   Primitive.textLabel n.label (l.x + 12) (l.y + l.height / 2 - 15)
     (max 80 (min (l.width - 24) ((n.label.length : Int) * 10))) 30]

/-- The per-node loop body of `buildExcalidrawElements`.  The lookup
always succeeds for a node of the diagram (its id was written by
`buildNodeLayout`); the `none` branch is unreachable. -/
def nodePrimitives (layouts : List (String × NodeLayout)) (n : DiagramNode) :
    List Primitive :=
  match lastAssoc? layouts n.id with
  | some l => nodePrimsAt n l
  | none => []

/-- `createArrowElement`: anchored at the source cell center, with the
displacement vector to the destination cell center. -/
def arrowPrimAt (e : DiagramEdge) (f t : NodeLayout) : Primitive :=
  Primitive.arrow e.fromId e.toId (f.x + f.width / 2) (f.y + f.height / 2)
    ((t.x + t.width / 2) - (f.x + f.width / 2))
    ((t.y + t.height / 2) - (f.y + f.height / 2))

/-- The per-edge loop body: resolve both endpoints, silently skip the
edge when either is unresolvable. -/
def edgePrimitive (layouts : List (String × NodeLayout)) (e : DiagramEdge) :
    Option Primitive :=
  match lastAssoc? layouts e.fromId, lastAssoc? layouts e.toId with
  | some f, some t => some (arrowPrimAt e f t)
  | _, _ => none

def buildExcalidrawElements (d : Diagram) : List Primitive :=
  let layouts := buildNodeLayout d.nodes
  (d.nodes.flatMap (nodePrimitives layouts)) ++
    (d.edges.filterMap (edgePrimitive layouts))

/-!
## Spec-side definitions

Definitions below formalize wording of the specification (alias pickers,
shape predicates, counting characterizations) to be compared with the
source-derived functions above.
-/

def Primitive.isArrow : Primitive → Bool
  | Primitive.arrow .. => true
  | _ => false

def isErr {ε α : Type} : Except ε α → Bool
  | Except.error _ => true
  | Except.ok _ => false

/-- The fatal conditions of §7: missing credentials, timeout, transport
failure, malformed envelope. -/
def fatalB (apiKey : Option String) (outcome : ProviderOutcome) : Bool :=
  match apiKey with
  | none => true
  | some _ =>
    match outcome with
    | ProviderOutcome.timeout => true
    | ProviderOutcome.httpError _ _ => true
    | ProviderOutcome.ok env => (parseEnvelope env).isNone

/-- Spec wording: a field value that is a string or a number. -/
def strOrNum : Json → Bool
  | Json.str _ => true
  | Json.num _ => true
  | _ => false

def optFieldOk (fs : List (String × Json)) (k : String) : Bool :=
  match lastAssoc? fs k with
  | none => true
  | some j => strOrNum j

/-- Spec wording for a lenient node element: an object with a
string-or-number id and optional string-or-number label/name/text/title. -/
def lenientNodeOkB (v : Json) : Bool :=
  match v with
  | Json.obj fs =>
    (match lastAssoc? fs "id" with
     | some j => strOrNum j
     | none => false) &&
      optFieldOk fs "label" && optFieldOk fs "name" &&
      optFieldOk fs "text" && optFieldOk fs "title"
  | _ => false

/-- Spec wording for a lenient edge element: an object with optional
string-or-number from/to/source/target. -/
def lenientEdgeOkB (v : Json) : Bool :=
  match v with
  | Json.obj fs =>
    optFieldOk fs "from" && optFieldOk fs "to" &&
      optFieldOk fs "source" && optFieldOk fs "target"
  | _ => false

def arrFieldOk (fs : List (String × Json)) (k : String)
    (elemOk : Json → Bool) : Bool :=
  match lastAssoc? fs k with
  | none => true
  | some (Json.arr xs) => xs.all elemOk
  | some _ => false

/-- Spec wording for the lenient stage's success condition: an object
whose nodes/edges fields are absent or arrays of admissible elements. -/
def lenientShapeOk (v : Json) : Bool :=
  match v with
  | Json.obj fs =>
    arrFieldOk fs "nodes" lenientNodeOkB && arrFieldOk fs "edges" lenientEdgeOkB
  | _ => false

/-- Spec wording: the coerced value of field `k` when it is present and
non-empty. -/
def presentNonEmpty (fs : List (String × Json)) (k : String) : Option String :=
  match (lastAssoc? fs k).bind coerceStr with
  | some s => if s = "" then none else some s
  | none => none

/-- Spec wording of the label alias order: first present-and-non-empty of
label, name, text, title, else the node's own id string. -/
def specLabelPick (fs : List (String × Json)) (idStr : String) : String :=
  match presentNonEmpty fs "label" with
  | some s => s
  | none =>
    match presentNonEmpty fs "name" with
    | some s => s
    | none =>
      match presentNonEmpty fs "text" with
      | some s => s
      | none =>
        match presentNonEmpty fs "title" with
        | some s => s
        | none => idStr

/-- Spec wording of an edge endpoint: primary key first, then the alias,
else empty. -/
def specEndpoint (fs : List (String × Json)) (primary alt : String) : String :=
  match presentNonEmpty fs primary with
  | some s => s
  | none =>
    match presentNonEmpty fs alt with
    | some s => s
    | none => ""

/-- Net brace depth of a character run. -/
def braceDiff (cs : List Char) : Int :=
  (cs.count lbrace : Int) - (cs.count rbrace : Int)

/-- The index of the last node with the given id, if any. -/
def lastIdx? (k : String) : List DiagramNode → Option Nat
  | [] => none
  | n :: rest =>
    match lastIdx? k rest with
    | some j => some (j + 1)
    | none => if n.id = k then some 0 else none

/-- Both endpoints of an edge resolve in the layout table. -/
def edgeResolvable (layouts : List (String × NodeLayout)) (e : DiagramEdge) : Bool :=
  (lastAssoc? layouts e.fromId).isSome && (lastAssoc? layouts e.toId).isSome

/-!
## Concrete fixtures from the claims
-/

def c5text : String :=
  "\x7b\"nodes\":[\x7b\"id\":\"a\",\"label\":\"A\"\x7d,],\"edges\":[]\x7d"

def c8label : String := String.mk (List.replicate 201 'a')

def c8json : Json :=
  Json.obj [("nodes", Json.arr [Json.obj [("id", Json.str "a"),
    ("label", Json.str c8label)]]), ("edges", Json.arr [])]

def c8text : String :=
  "\x7b\"nodes\":[\x7b\"id\":\"a\",\"label\":\"" ++ c8label ++
    "\"\x7d],\"edges\":[]\x7d"

def c3cex : Json :=
  Json.obj [("nodes", Json.arr [Json.obj [("label", Json.str "A")]]),
    ("edges", Json.arr [])]

def c4json : Json :=
  Json.obj [("nodes", Json.arr [Json.obj [("id", Json.str "x"),
      ("name", Json.str "X Node")]]),
    ("edges", Json.arr [Json.obj [("source", Json.str "x"),
      ("target", Json.str "x")]])]

/-!
## Helper lemmas: layout
-/

theorem buildNodeLayoutAux_getElem? (ns : List DiagramNode) :
    ∀ (t j i : Nat), (buildNodeLayoutAux t j ns)[i]? =
      ns[i]?.map (fun n => (n.id, cellFor t (j + i))) := by
  induction ns with
  | nil => intro t j i; simp [buildNodeLayoutAux]
  | cons n rest ih =>
    intro t j i
    cases i with
    | zero => simp [buildNodeLayoutAux]
    | succ i' =>
      simp only [buildNodeLayoutAux, List.getElem?_cons_succ]
      rw [ih t (j + 1) i']
      have h : j + 1 + i' = j + (i' + 1) := by omega
      rw [h]

theorem lastAssoc?_buildNodeLayoutAux (ns : List DiagramNode) :
    ∀ (t j : Nat) (k : String),
      lastAssoc? (buildNodeLayoutAux t j ns) k =
        (lastIdx? k ns).map (fun m => cellFor t (j + m)) := by
  induction ns with
  | nil => intro t j k; simp [buildNodeLayoutAux, lastIdx?, lastAssoc?]
  | cons n rest ih =>
    intro t j k
    simp only [buildNodeLayoutAux, lastAssoc?, lastIdx?]
    rw [ih t (j + 1) k]
    cases h : lastIdx? k rest with
    | none =>
      simp only [Option.map_none']
      split
      · simp
      · simp
    | some m =>
      simp only [Option.map_some']
      have harith : j + 1 + m = j + (m + 1) := by omega
      rw [harith]

theorem lastIdx?_none_spec (ns : List DiagramNode) :
    ∀ k, lastIdx? k ns = none →
      ∀ (i : Nat) (n : DiagramNode), ns[i]? = some n → n.id ≠ k := by
  induction ns with
  | nil => intro k _ i n h; simp at h
  | cons x rest ih =>
    intro k h i n hget
    simp only [lastIdx?] at h
    cases hr : lastIdx? k rest with
    | some m => rw [hr] at h; exact absurd h (by simp)
    | none =>
      rw [hr] at h
      have hx : ¬ x.id = k := by
        intro hid
        rw [if_pos hid] at h
        exact absurd h (by simp)
      cases i with
      | zero =>
        rw [List.getElem?_cons_zero] at hget
        cases hget
        exact hx
      | succ i' =>
        rw [List.getElem?_cons_succ] at hget
        exact ih k hr i' n hget

theorem lastIdx?_some_spec (ns : List DiagramNode) :
    ∀ k m, lastIdx? k ns = some m →
      m < ns.length ∧ ns[m]?.map DiagramNode.id = some k ∧
        ∀ j, m < j → ns[j]?.map DiagramNode.id ≠ some k := by
  induction ns with
  | nil => intro k m h; simp [lastIdx?] at h
  | cons x rest ih =>
    intro k m h
    simp only [lastIdx?] at h
    cases hr : lastIdx? k rest with
    | some m0 =>
      rw [hr] at h
      have hm : m = m0 + 1 := by cases h; rfl
      subst hm
      obtain ⟨h1, h2, h3⟩ := ih k m0 hr
      refine ⟨by simpa using Nat.succ_lt_succ h1, ?_, ?_⟩
      · rw [List.getElem?_cons_succ]; exact h2
      · intro j hj
        cases j with
        | zero => omega
        | succ j' =>
          rw [List.getElem?_cons_succ]
          exact h3 j' (by omega)
    | none =>
      rw [hr] at h
      by_cases hid : x.id = k
      · rw [if_pos hid] at h
        have hm : m = 0 := by cases h; rfl
        subst hm
        refine ⟨by simp, by simp [hid], ?_⟩
        intro j hj
        cases j with
        | zero => omega
        | succ j' =>
          rw [List.getElem?_cons_succ]
          cases hg : rest[j']? with
          | none => simp
          | some n' =>
            have := lastIdx?_none_spec rest k hr j' n' hg
            simp [this]
      · rw [if_neg hid] at h
        exact absurd h (by simp)

theorem countP_isArrow_nodePrimitives (layouts : List (String × NodeLayout))
    (n : DiagramNode) :
    (nodePrimitives layouts n).countP Primitive.isArrow = 0 := by
  unfold nodePrimitives
  cases lastAssoc? layouts n.id with
  | none => rfl
  | some l =>
    simp [nodePrimsAt, List.countP_cons, Primitive.isArrow]

theorem countP_isArrow_flatMap (layouts : List (String × NodeLayout)) :
    ∀ ns : List DiagramNode,
      ((ns.flatMap (nodePrimitives layouts)).countP Primitive.isArrow) = 0 := by
  intro ns
  induction ns with
  | nil => rfl
  | cons n rest ih =>
    rw [List.flatMap_cons, List.countP_append, ih,
      countP_isArrow_nodePrimitives]

theorem countP_isArrow_filterMap (layouts : List (String × NodeLayout)) :
    ∀ es : List DiagramEdge,
      ((es.filterMap (edgePrimitive layouts)).countP Primitive.isArrow) =
        es.countP (edgeResolvable layouts) := by
  intro es
  induction es with
  | nil => rfl
  | cons e rest ih =>
    rw [List.filterMap_cons, List.countP_cons]
    cases h1 : lastAssoc? layouts e.fromId with
    | none => simp [edgePrimitive, edgeResolvable, h1, ih]
    | some f =>
      cases h2 : lastAssoc? layouts e.toId with
      | none => simp [edgePrimitive, edgeResolvable, h1, h2, ih]
      | some t =>
        simp [edgePrimitive, edgeResolvable, h1, h2, List.countP_cons, ih,
          Primitive.isArrow, arrowPrimAt]

theorem sqrt_four : Nat.sqrt 4 = 2 := Nat.sqrt_eq 2

theorem sqrt_five : Nat.sqrt 5 = 2 := by
  have a : 2 ≤ Nat.sqrt 5 := Nat.le_sqrt.mpr (by norm_num)
  have b : Nat.sqrt 5 < 3 := Nat.sqrt_lt.mpr (by norm_num)
  omega

theorem columns_zero : columns 0 = 1 := by
  simp [columns, ceilSqrt, show Nat.sqrt 0 = 0 from Nat.sqrt_eq 0]

theorem columns_one : columns 1 = 1 := by
  simp [columns, ceilSqrt, show Nat.sqrt 1 = 1 from Nat.sqrt_eq 1]

theorem columns_four : columns 4 = 2 := by
  simp [columns, ceilSqrt, sqrt_four]

theorem columns_five : columns 5 = 3 := by
  norm_num [columns, ceilSqrt, sqrt_five]

theorem columns_least (N : Nat) :
    1 ≤ columns N ∧ N ≤ columns N * columns N ∧
      ∀ m : Nat, 1 ≤ m → N ≤ m * m → columns N ≤ m := by
  unfold columns ceilSqrt
  refine ⟨le_max_left 1 _, ?_, ?_⟩
  · split_ifs with h
    · calc N = Nat.sqrt N * Nat.sqrt N := h.symm
        _ ≤ max 1 (Nat.sqrt N) * max 1 (Nat.sqrt N) :=
          Nat.mul_le_mul (le_max_right 1 _) (le_max_right 1 _)
    · have hmax : max 1 (Nat.sqrt N + 1) = Nat.sqrt N + 1 :=
        max_eq_right (by omega)
      rw [hmax]
      have := Nat.lt_succ_sqrt N
      simp only [Nat.succ_eq_add_one] at this
      omega
  · intro m hm hNm
    split_ifs with h
    · apply max_le hm
      have := Nat.sqrt_le_sqrt hNm
      rwa [Nat.sqrt_eq] at this
    · apply max_le hm
      by_contra hc
      push_neg at hc
      have h1 : m * m ≤ Nat.sqrt N * Nat.sqrt N :=
        Nat.mul_le_mul (by omega) (by omega)
      have h2 := Nat.sqrt_le N
      exact h (by omega)

/-!
## Claims about the layout synthesizer
-/

/-- Claim C7: the layout uses `columns = max(1, ceil(sqrt(N)))` (here
characterized as the least positive `m` with `N ≤ m * m`), places the
node at insertion index `i` at row `i / columns`, column `i % columns`,
at `(GRID_START_X + col * GRID_GAP_X, GRID_START_Y + row * GRID_GAP_Y)`
with the fixed cell width and height; for `N = 0` the primitive list is
empty, and `columns` is 1, 2, 3 at `N` = 1, 4, 5 respectively. -/
theorem c7_grid_layout :
    (∀ (nodes : List DiagramNode) (i : Nat) (n : DiagramNode),
        nodes[i]? = some n →
        (buildNodeLayout nodes)[i]? =
          some (n.id,
            { x := GRID_START_X + (↑(i % columns nodes.length) : Int) * GRID_GAP_X,
              y := GRID_START_Y + (↑(i / columns nodes.length) : Int) * GRID_GAP_Y,
              width := NODE_WIDTH, height := NODE_HEIGHT })) ∧
    (∀ N : Nat, 1 ≤ columns N ∧ N ≤ columns N * columns N ∧
        ∀ m : Nat, 1 ≤ m → N ≤ m * m → columns N ≤ m) ∧
    columns 0 = 1 ∧ columns 1 = 1 ∧ columns 4 = 2 ∧ columns 5 = 3 ∧
    (∀ es : List DiagramEdge,
        buildExcalidrawElements { nodes := [], edges := es } = []) := by
  refine ⟨?_, columns_least, columns_zero, columns_one, columns_four,
    columns_five, ?_⟩
  · intro nodes i n h
    unfold buildNodeLayout
    rw [buildNodeLayoutAux_getElem?, h]
    simp [cellFor]
  · intro es
    simp only [buildExcalidrawElements, buildNodeLayout, buildNodeLayoutAux,
      List.flatMap_nil, List.nil_append]
    rw [List.filterMap_eq_nil_iff]
    intro e _
    rfl

/-- Claim C7 witness: a concrete five-node diagram; the node at index 4
lands in row 1, column 1 of a three-column grid. -/
theorem c7_grid_layout_witness :
    (buildNodeLayout [⟨"a", "A"⟩, ⟨"b", "B"⟩, ⟨"c", "C"⟩, ⟨"d", "D"⟩,
        ⟨"e", "E"⟩])[4]? =
      some ("e",
        { x := GRID_START_X + (↑(4 % columns 5) : Int) * GRID_GAP_X,
          y := GRID_START_Y + (↑(4 / columns 5) : Int) * GRID_GAP_Y,
          width := NODE_WIDTH, height := NODE_HEIGHT }) :=
  c7_grid_layout.1 [⟨"a", "A"⟩, ⟨"b", "B"⟩, ⟨"c", "C"⟩, ⟨"d", "D"⟩,
    ⟨"e", "E"⟩] 4 ⟨"e", "E"⟩ rfl

/-- Claim C9: `buildExcalidrawElements` emits one arrow per edge whose
endpoints both resolve in the layout table and silently skips the rest,
so the arrow count is the resolvable-edge count, i.e. total edges minus
dangling edges. -/
theorem c9_arrow_count (d : Diagram) :
    ((buildExcalidrawElements d).countP Primitive.isArrow =
        d.edges.countP (edgeResolvable (buildNodeLayout d.nodes))) ∧
      ((buildExcalidrawElements d).countP Primitive.isArrow =
        d.edges.length -
          d.edges.countP
            (fun e => !(edgeResolvable (buildNodeLayout d.nodes) e))) := by
  have h1 : (buildExcalidrawElements d).countP Primitive.isArrow =
      d.edges.countP (edgeResolvable (buildNodeLayout d.nodes)) := by
    unfold buildExcalidrawElements
    rw [List.countP_append, countP_isArrow_flatMap, countP_isArrow_filterMap,
      Nat.zero_add]
  refine ⟨h1, ?_⟩
  rw [h1]
  have h2 := List.length_eq_countP_add_countP
    (edgeResolvable (buildNodeLayout d.nodes)) d.edges
  have h3 : d.edges.countP
      (fun e => !(edgeResolvable (buildNodeLayout d.nodes) e)) =
      d.edges.countP
        (fun e => decide ¬(edgeResolvable (buildNodeLayout d.nodes) e = true)) := by
    apply List.countP_congr
    intro e _
    simp
  omega

/-- Claim C10: with duplicate node ids the layout table is
last-write-wins: the lookup for an id resolves to the grid cell of the
last node carrying it (so every edge referencing the id resolves there),
and every duplicate node's rectangle and label primitives are emitted at
that same cell. -/
theorem c10_last_write_wins (d : Diagram) (k : String) (i2 : Nat)
    (h : lastIdx? k d.nodes = some i2) :
    (lastAssoc? (buildNodeLayout d.nodes) k =
        some (cellFor d.nodes.length i2)) ∧
      (∀ n ∈ d.nodes, n.id = k →
        nodePrimitives (buildNodeLayout d.nodes) n =
          nodePrimsAt n (cellFor d.nodes.length i2)) ∧
      (i2 < d.nodes.length ∧
        d.nodes[i2]?.map DiagramNode.id = some k ∧
        ∀ j, i2 < j → d.nodes[j]?.map DiagramNode.id ≠ some k) := by
  have hlook : lastAssoc? (buildNodeLayout d.nodes) k =
      some (cellFor d.nodes.length i2) := by
    unfold buildNodeLayout
    rw [lastAssoc?_buildNodeLayoutAux, h]
    simp
  refine ⟨hlook, ?_, lastIdx?_some_spec d.nodes k i2 h⟩
  intro n _ hid
  unfold nodePrimitives
  rw [hid, hlook]

/-- Claim C10 witness: nodes `x, y, x` — both `x` nodes' primitives sit
at the cell of index 2, and the lookup for `x` resolves there. -/
theorem c10_last_write_wins_witness :
    (lastAssoc?
        (buildNodeLayout [⟨"x", "A"⟩, ⟨"y", "B"⟩, ⟨"x", "C"⟩]) "x" =
      some (cellFor 3 2)) ∧
      nodePrimitives (buildNodeLayout [⟨"x", "A"⟩, ⟨"y", "B"⟩, ⟨"x", "C"⟩])
          ⟨"x", "A"⟩ =
        nodePrimsAt ⟨"x", "A"⟩ (cellFor 3 2) := by
  have h := c10_last_write_wins
    { nodes := [⟨"x", "A"⟩, ⟨"y", "B"⟩, ⟨"x", "C"⟩], edges := [] } "x" 2 rfl
  exact ⟨h.1, h.2.1 ⟨"x", "A"⟩ (by simp) rfl⟩

/-!
## Claims about the pipeline's error behavior
-/

/-- Claim C2: `generateDiagramWithNim` throws exactly in the fatal cases
(missing `NVIDIA_NIM_API_KEY`, timeout/abort of the single provider
call, non-success HTTP status, malformed provider envelope); for every
valid envelope the whole content pipeline runs without throwing,
whatever the model content is. -/
theorem c2_fatal_only (apiKey : Option String) (outcome : ProviderOutcome)
    (modelParam : Option String) :
    isErr (generateDiagramWithNim apiKey outcome modelParam) =
      fatalB apiKey outcome := by
  cases apiKey with
  | none => rfl
  | some key =>
    cases outcome with
    | timeout => rfl
    | httpError s b => rfl
    | ok env =>
      simp only [generateDiagramWithNim, fatalB]
      cases h : parseEnvelope env with
      | none => simp [h, isErr]
      | some cs => simp [h, isErr]

theorem validateStage_fallback (j : Json) (g : NimDiagnostics) :
    (validateStage j g).2.usedFallback = g.usedFallback ∨
      ((validateStage j g).1 = emptyDiagram ∧
        (validateStage j g).2.usedFallback = true) := by
  unfold validateStage
  cases h : lenientDiagramParse j with
  | some d =>
    dsimp only
    by_cases hs : strictCheckDiagram d = true
    · rw [if_pos hs]; exact Or.inl rfl
    · rw [if_neg hs]; exact Or.inl rfl
  | none =>
    dsimp only
    cases h2 : strictParseJson j with
    | some d => exact Or.inl rfl
    | none => exact Or.inr ⟨rfl, rfl⟩

/-- Claim C1 (amended): whenever any recovery stage fails — empty
content, extraction failure, parse failure after repair, or failure of
all validation paths (`usedFallback = true`) — the returned diagram is
exactly the empty fallback.  The converse direction of the original
claim is false: see the counterexample. -/
theorem c1_fallback_empty (content : String)
    (h : (processContent content).2.usedFallback = true) :
    (processContent content).1 = emptyDiagram := by
  by_cases hc : jsTrimStr content = ""
  · simp only [processContent, if_pos hc]
  · simp only [processContent, if_neg hc] at h ⊢
    cases hx : extractJsonFromText content with
    | error msg => simp only [hx]
    | ok block =>
      simp only [hx] at h ⊢
      rcases hp : parseStage block with ⟨o, rep, perr⟩
      cases o with
      | none => simp only [hp]
      | some v =>
        simp only [hp] at h ⊢
        rcases validateStage_fallback (tryUnwrapStringifiedJson v)
          { initialDiagnostics content with
              extractedJson := some (String.mk block),
              repairApplied := rep } with h1 | ⟨h2, _⟩
        · rw [h1] at h
          simp [initialDiagnostics] at h
        · exact h2

/-- Claim C1 witness: a content string with no brace — every stage fails
and the empty fallback is returned. -/
theorem c1_fallback_empty_witness :
    (processContent "total garbage").2.usedFallback = true ∧
      (processContent "total garbage").1 = emptyDiagram :=
  ⟨rfl, c1_fallback_empty "total garbage" rfl⟩

/-- Claim C1 counterexample: on content that is exactly the empty JSON
diagram, every stage succeeds (strict validation passes, no fallback),
yet the returned diagram is the empty one — refuting the claimed
equivalence between emptiness and all-stage failure. -/
theorem c1_counterexample :
    (processContent "\x7b\"nodes\":[],\"edges\":[]\x7d").1 = emptyDiagram ∧
      (processContent "\x7b\"nodes\":[],\"edges\":[]\x7d").2.usedFallback = false ∧
      (processContent "\x7b\"nodes\":[],\"edges\":[]\x7d").2.parseError = none ∧
      (processContent "\x7b\"nodes\":[],\"edges\":[]\x7d").2.validationError = none :=
  ⟨rfl, rfl, rfl, rfl⟩

/-!
## Claims about parsing with repair
-/

/-- Claim C5: when direct parsing of a candidate block fails, exactly one
mechanical repair (the global trailing-comma substitution of
`repairJson`) is applied, followed by exactly one retry parse; if the
repaired parse also fails the pipeline soft-fails to the empty diagram
recording the parse error and the attempted repair. -/
theorem c5_repair_once :
    (∀ block : List Char, jsonParse0 block = none →
        parseStage block =
          match jsonParse0 (repairJson block).1 with
          | some v => (some v, (repairJson block).2, none)
          | none => (none, (repairJson block).2, some parseFailMsg)) ∧
      (∀ (content : String) (block : List Char), ¬jsTrimStr content = "" →
        extractJsonFromText content = Except.ok block →
        jsonParse0 block = none →
        jsonParse0 (repairJson block).1 = none →
        processContent content =
          (emptyDiagram,
           { initialDiagnostics content with
               extractedJson := some (String.mk block),
               repairApplied := (repairJson block).2,
               parseError := some parseFailMsg,
               usedFallback := true })) := by
  constructor
  · intro block h
    unfold parseStage
    rw [h]
  · intro content block h1 hx h2 h3
    have hp : parseStage block =
        (none, (repairJson block).2, some parseFailMsg) := by
      unfold parseStage
      rw [h2, h3]
    simp only [processContent, if_neg h1, hx, hp]

/-- Claim C5 witness: the claim's concrete input — the initial parse
fails, the trailing-comma repair is recorded and the retried parse
succeeds, so the pipeline returns the one-node diagram with
`repairApplied` non-null. -/
theorem c5_repair_once_witness :
    jsonParse0 c5text.toList = none ∧
      (repairJson c5text.toList).2 = some repairMsg ∧
      parseStage c5text.toList =
        (match jsonParse0 (repairJson c5text.toList).1 with
         | some v => (some v, (repairJson c5text.toList).2, none)
         | none => (none, (repairJson c5text.toList).2, some parseFailMsg)) ∧
      (processContent c5text).1 =
        { nodes := [{ id := "a", label := "A" }], edges := [] } ∧
      (processContent c5text).2.repairApplied = some repairMsg ∧
      (processContent c5text).2.usedFallback = false :=
  ⟨rfl, rfl, c5_repair_once.1 c5text.toList rfl, rfl, rfl, rfl⟩

/-!
## Claims about validation outcomes
-/

/-- Claim C8: when lenient coercion succeeds but the coerced diagram
fails strict validation, the pipeline still returns the lenient result
as the final diagram, recording the strict issues only in
`diagnostics.validationError` (no empty-diagram fallback). -/
theorem c8_best_effort (j : Json) (g : NimDiagnostics) (d : Diagram)
    (h1 : lenientDiagramParse j = some d)
    (h2 : strictCheckDiagram d = false) :
    validateStage j g = (d, { g with validationError := some strictIssuesMsg }) := by
  unfold validateStage
  rw [h1]
  dsimp only
  rw [h2]
  simp

/-- Claim C8 witness: a coerced diagram with a 201-character label passes
lenient coercion, fails strict validation, and is still returned, with
the strict issues recorded; end-to-end the pipeline output is the
over-limit diagram with no fallback. -/
theorem c8_best_effort_witness :
    lenientDiagramParse c8json =
        some { nodes := [{ id := "a", label := c8label }], edges := [] } ∧
      strictCheckDiagram
          { nodes := [{ id := "a", label := c8label }], edges := [] } = false ∧
      validateStage c8json (initialDiagnostics "") =
        ({ nodes := [{ id := "a", label := c8label }], edges := [] },
         { initialDiagnostics "" with validationError := some strictIssuesMsg }) ∧
      (processContent c8text).1 =
        { nodes := [{ id := "a", label := c8label }], edges := [] } ∧
      (processContent c8text).2.validationError = some strictIssuesMsg ∧
      (processContent c8text).2.usedFallback = false :=
  ⟨rfl, rfl, c8_best_effort c8json (initialDiagnostics "") _ rfl rfl,
    rfl, rfl, rfl⟩

/-!
## Helper lemmas: brace-block extraction
-/

theorem braceDiff_nil : braceDiff [] = 0 := by
  simp [braceDiff]

theorem braceDiff_cons (c : Char) (l : List Char) :
    braceDiff (c :: l) = braceDelta c + braceDiff l := by
  simp only [braceDiff, braceDelta, List.count_cons, beq_iff_eq]
  split_ifs <;> push_cast <;> ring

theorem dropWhile_head_false {α : Type} (p : α → Bool) :
    ∀ (l : List α) (a : α) (rest : List α),
      l.dropWhile p = a :: rest → p a = false := by
  intro l
  induction l with
  | nil => intro a rest h; simp at h
  | cons x xs ih =>
    intro a rest h
    rw [List.dropWhile_cons] at h
    by_cases hx : p x = true
    · rw [if_pos hx] at h
      exact ih a rest h
    · rw [if_neg hx] at h
      cases h
      exact Bool.not_eq_true _ |>.mp hx

theorem findBraceEnd_some :
    ∀ (cs : List Char) (d : Int) (i j : Nat),
      findBraceEnd cs d i = some j →
      ∃ m : Nat, j = i + m ∧ m < cs.length ∧
        d + braceDiff (cs.take (m + 1)) = 0 ∧
        ∀ m' < m, d + braceDiff (cs.take (m' + 1)) ≠ 0 := by
  intro cs
  induction cs with
  | nil => intro d i j h; simp [findBraceEnd] at h
  | cons c rest ih =>
    intro d i j h
    unfold findBraceEnd at h
    by_cases hz : d + braceDelta c = 0
    · rw [if_pos hz] at h
      cases h
      refine ⟨0, by omega, by simp, ?_, by omega⟩
      simpa [List.take_succ_cons, braceDiff_cons, braceDiff_nil] using hz
    · rw [if_neg hz] at h
      obtain ⟨m0, hj, hlen, hbal, hmin⟩ := ih (d + braceDelta c) (i + 1) j h
      refine ⟨m0 + 1, by omega, by simp; omega, ?_, ?_⟩
      · rw [List.take_succ_cons, braceDiff_cons]
        omega
      · intro m' hm'
        cases m' with
        | zero =>
          simpa [List.take_succ_cons, braceDiff_cons, braceDiff_nil] using hz
        | succ m'' =>
          rw [List.take_succ_cons, braceDiff_cons]
          have := hmin m'' (by omega)
          omega

theorem findBraceEnd_none :
    ∀ (cs : List Char) (d : Int) (i : Nat),
      findBraceEnd cs d i = none →
      ∀ m < cs.length, d + braceDiff (cs.take (m + 1)) ≠ 0 := by
  intro cs
  induction cs with
  | nil => intro d i _ m hm; simp at hm
  | cons c rest ih =>
    intro d i h m hm
    unfold findBraceEnd at h
    by_cases hz : d + braceDelta c = 0
    · rw [if_pos hz] at h; exact absurd h (by simp)
    · rw [if_neg hz] at h
      cases m with
      | zero =>
        simpa [List.take_succ_cons, braceDiff_cons, braceDiff_nil] using hz
      | succ m' =>
        rw [List.take_succ_cons, braceDiff_cons]
        have := ih (d + braceDelta c) (i + 1) h m' (by simp at hm; omega)
        omega

/-!
## Claim about JSON block extraction
-/

/-- Claim C6: extraction returns the substring of the fence-stripped,
trimmed text running from its first `\x7b` to the position where the
brace-depth counter first returns to zero (characterized here as the
shortest nonempty prefix of the tail with equally many opening and
closing braces); if the text contains no `\x7b`, or the depth never
returns to zero, extraction soft-fails and the pipeline returns the
empty diagram with `usedFallback = true` and no exception. -/
theorem c6_extraction :
    (∀ (content : String) (block : List Char),
        extractJsonFromText content = Except.ok block →
        ∃ pre post : List Char,
          normalizeText content = pre ++ block ++ post ∧
          lbrace ∉ pre ∧
          block.head? = some lbrace ∧
          block.count lbrace = block.count rbrace ∧
          ∀ k : Nat, 0 < k → k < block.length →
            (block.take k).count lbrace ≠ (block.take k).count rbrace) ∧
      (∀ content : String, lbrace ∉ normalizeText content →
        extractJsonFromText content = Except.error noJsonMsg ∧
        (processContent content).1 = emptyDiagram ∧
        (processContent content).2.usedFallback = true) ∧
      (∀ content : String,
        (normalizeText content).dropWhile (fun c => !(c == lbrace)) ≠ [] →
        (∀ k : Nat, 0 < k →
          k ≤ ((normalizeText content).dropWhile (fun c => !(c == lbrace))).length →
          (((normalizeText content).dropWhile (fun c => !(c == lbrace))).take k).count lbrace ≠
            (((normalizeText content).dropWhile (fun c => !(c == lbrace))).take k).count rbrace) →
        extractJsonFromText content = Except.error unbalancedMsg ∧
        (processContent content).1 = emptyDiagram ∧
        (processContent content).2.usedFallback = true) ∧
      (∀ (content msg : String),
        extractJsonFromText content = Except.error msg →
        (processContent content).1 = emptyDiagram ∧
        (processContent content).2.usedFallback = true) := by
  have hfallback : ∀ (content msg : String),
      extractJsonFromText content = Except.error msg →
      (processContent content).1 = emptyDiagram ∧
      (processContent content).2.usedFallback = true := by
    intro content msg hx
    by_cases hc : jsTrimStr content = ""
    · constructor
      · simp [processContent, hc]
      · simp [processContent, hc]
    · constructor
      · simp [processContent, hc, hx]
      · simp [processContent, hc, hx]
  refine ⟨?_, ?_, ?_, hfallback⟩
  · intro content block h
    unfold extractJsonFromText at h
    cases hafter : (normalizeText content).dropWhile (fun c => !(c == lbrace)) with
    | nil => rw [hafter] at h; exact absurd h (by simp)
    | cons a rest =>
      rw [hafter] at h
      dsimp only at h
      cases hfb : findBraceEnd (a :: rest) 0 0 with
      | none => rw [hfb] at h; exact absurd h (by simp)
      | some e =>
        rw [hfb] at h
        dsimp only at h
        have hb : block = (a :: rest).take (e + 1) := by
          cases h; rfl
        obtain ⟨m, hm, hlen, hbal, hmin⟩ :=
          findBraceEnd_some (a :: rest) 0 0 e hfb
        have hme : m = e := by omega
        subst hme
        simp only [List.length_cons] at hlen
        have halb : a = lbrace := by
          have := dropWhile_head_false (fun c => !(c == lbrace))
            (normalizeText content) a rest hafter
          simpa using this
        refine ⟨(normalizeText content).takeWhile (fun c => !(c == lbrace)),
          (a :: rest).drop (m + 1), ?_, ?_, ?_, ?_, ?_⟩
        · rw [hb, List.append_assoc, List.take_append_drop, ← hafter,
            List.takeWhile_append_dropWhile]
        · intro hmem
          have := List.mem_takeWhile_imp hmem
          simp at this
        · rw [hb, List.take_succ_cons]
          simp [halb]
        · have hb0 := hbal
          rw [hb]
          simp only [braceDiff] at hb0
          omega
        · intro k hk0 hklen
          have hblen : block.length = m + 1 := by
            rw [hb, List.length_take]
            simp only [List.length_cons]
            omega
          have hk1 : k - 1 < m := by omega
          have hne := hmin (k - 1) hk1
          have hkk : k - 1 + 1 = k := by omega
          rw [hkk] at hne
          have htake : block.take k = (a :: rest).take k := by
            rw [hb, List.take_take]
            have hmink : min k (m + 1) = k := by omega
            rw [hmink]
          rw [htake]
          simp only [braceDiff] at hne
          omega
  · intro content hnb
    have hdrop : (normalizeText content).dropWhile (fun c => !(c == lbrace)) = [] := by
      rw [List.dropWhile_eq_nil_iff]
      intro x hxmem
      simp only [Bool.not_eq_true', beq_eq_false_iff_ne, ne_eq]
      intro heq
      exact hnb (heq ▸ hxmem)
    have hx : extractJsonFromText content = Except.error noJsonMsg := by
      unfold extractJsonFromText
      rw [hdrop]
    exact ⟨hx, hfallback content noJsonMsg hx⟩
  · intro content hne hbalk
    cases hafter : (normalizeText content).dropWhile (fun c => !(c == lbrace)) with
    | nil => exact absurd hafter hne
    | cons a rest =>
      have hfbnone : findBraceEnd (a :: rest) 0 0 = none := by
        cases hfb : findBraceEnd (a :: rest) 0 0 with
        | none => rfl
        | some e =>
          obtain ⟨m, hm, hlen, hbal, hmin⟩ :=
            findBraceEnd_some (a :: rest) 0 0 e hfb
          simp only [List.length_cons] at hlen
          have hcount := hbalk (m + 1) (by omega)
            (by rw [hafter]; simp only [List.length_cons]; omega)
          rw [hafter] at hcount
          simp only [braceDiff] at hbal
          omega
      have hx : extractJsonFromText content = Except.error unbalancedMsg := by
        unfold extractJsonFromText
        rw [hafter]
        dsimp only
        rw [hfbnone]
      exact ⟨hx, hfallback content unbalancedMsg hx⟩

/-- Claim C6 witness: content with no brace anywhere — extraction fails
with the no-JSON error and the pipeline returns the empty fallback. -/
theorem c6_extraction_witness :
    extractJsonFromText "no braces anywhere" = Except.error noJsonMsg ∧
      (processContent "no braces anywhere").1 = emptyDiagram ∧
      (processContent "no braces anywhere").2.usedFallback = true :=
  c6_extraction.2.1 "no braces anywhere" (by decide)

/-!
## Helper lemmas: lenient schema
-/

theorem coerceStr_isSome (j : Json) : (coerceStr j).isSome = strOrNum j := by
  cases j <;> rfl

theorem optCoerce_isSome (fs : List (String × Json)) (k : String) :
    (optCoerce fs k).isSome = optFieldOk fs k := by
  unfold optCoerce optFieldOk
  cases lastAssoc? fs k with
  | none => rfl
  | some j => cases j <;> rfl

theorem lenientNodeParse_isSome (v : Json) :
    (lenientNodeParse v).isSome = lenientNodeOkB v := by
  cases v with
  | obj fs =>
    simp only [lenientNodeParse, lenientNodeOkB]
    cases hid : lastAssoc? fs "id" with
    | none => rfl
    | some idJ =>
      cases hci : coerceStr idJ with
      | none =>
        have hsn : strOrNum idJ = false := by rw [← coerceStr_isSome, hci]; rfl
        simp_all
      | some i =>
        have hsn : strOrNum idJ = true := by rw [← coerceStr_isSome, hci]; rfl
        cases hl : optCoerce fs "label" with
        | none =>
          have : optFieldOk fs "label" = false := by
            rw [← optCoerce_isSome, hl]; rfl
          simp_all
        | some labelO =>
          have hfl : optFieldOk fs "label" = true := by
            rw [← optCoerce_isSome, hl]; rfl
          cases hn : optCoerce fs "name" with
          | none =>
            have : optFieldOk fs "name" = false := by
              rw [← optCoerce_isSome, hn]; rfl
            simp_all
          | some nameO =>
            have hfn : optFieldOk fs "name" = true := by
              rw [← optCoerce_isSome, hn]; rfl
            cases ht : optCoerce fs "text" with
            | none =>
              have : optFieldOk fs "text" = false := by
                rw [← optCoerce_isSome, ht]; rfl
              simp_all
            | some textO =>
              have hft : optFieldOk fs "text" = true := by
                rw [← optCoerce_isSome, ht]; rfl
              cases hti : optCoerce fs "title" with
              | none =>
                have : optFieldOk fs "title" = false := by
                  rw [← optCoerce_isSome, hti]; rfl
                simp_all
              | some titleO =>
                have hfti : optFieldOk fs "title" = true := by
                  rw [← optCoerce_isSome, hti]; rfl
                simp_all
  | null => rfl
  | bool b => rfl
  | num n => rfl
  | str s => rfl
  | arr xs => rfl

theorem lenientEdgeParse_isSome (v : Json) :
    (lenientEdgeParse v).isSome = lenientEdgeOkB v := by
  cases v with
  | obj fs =>
    simp only [lenientEdgeParse, lenientEdgeOkB]
    cases hf : optCoerce fs "from" with
    | none =>
      have : optFieldOk fs "from" = false := by
        rw [← optCoerce_isSome, hf]; rfl
      simp_all
    | some fromO =>
      have hff : optFieldOk fs "from" = true := by
        rw [← optCoerce_isSome, hf]; rfl
      cases hto : optCoerce fs "to" with
      | none =>
        have : optFieldOk fs "to" = false := by
          rw [← optCoerce_isSome, hto]; rfl
        simp_all
      | some toO =>
        have hft : optFieldOk fs "to" = true := by
          rw [← optCoerce_isSome, hto]; rfl
        cases hs : optCoerce fs "source" with
        | none =>
          have : optFieldOk fs "source" = false := by
            rw [← optCoerce_isSome, hs]; rfl
          simp_all
        | some sourceO =>
          have hfs : optFieldOk fs "source" = true := by
            rw [← optCoerce_isSome, hs]; rfl
          cases hta : optCoerce fs "target" with
          | none =>
            have : optFieldOk fs "target" = false := by
              rw [← optCoerce_isSome, hta]; rfl
            simp_all
          | some targetO =>
            have hfta : optFieldOk fs "target" = true := by
              rw [← optCoerce_isSome, hta]; rfl
            simp_all
  | null => rfl
  | bool b => rfl
  | num n => rfl
  | str s => rfl
  | arr xs => rfl

theorem lenientNodeList_isSome :
    ∀ xs : List Json, (lenientNodeList xs).isSome = xs.all lenientNodeOkB := by
  intro xs
  induction xs with
  | nil => rfl
  | cons v rest ih =>
    simp only [lenientNodeList, List.all_cons]
    cases hv : lenientNodeParse v with
    | none =>
      have : lenientNodeOkB v = false := by
        rw [← lenientNodeParse_isSome, hv]; rfl
      simp_all
    | some n =>
      have hok : lenientNodeOkB v = true := by
        rw [← lenientNodeParse_isSome, hv]; rfl
      cases hrest : lenientNodeList rest with
      | none =>
        rw [hrest] at ih
        simp_all
      | some ns =>
        rw [hrest] at ih
        simp_all

theorem lenientEdgeList_isSome :
    ∀ xs : List Json, (lenientEdgeList xs).isSome = xs.all lenientEdgeOkB := by
  intro xs
  induction xs with
  | nil => rfl
  | cons v rest ih =>
    simp only [lenientEdgeList, List.all_cons]
    cases hv : lenientEdgeParse v with
    | none =>
      have : lenientEdgeOkB v = false := by
        rw [← lenientEdgeParse_isSome, hv]; rfl
      simp_all
    | some e =>
      have hok : lenientEdgeOkB v = true := by
        rw [← lenientEdgeParse_isSome, hv]; rfl
      cases hrest : lenientEdgeList rest with
      | none =>
        rw [hrest] at ih
        simp_all
      | some es =>
        rw [hrest] at ih
        simp_all

theorem lenientRawParts_isSome (v : Json) :
    (lenientRawParts v).isSome = lenientShapeOk v := by
  cases v with
  | obj fs =>
    simp only [lenientRawParts, lenientShapeOk, arrFieldOk]
    cases hn : lastAssoc? fs "nodes" with
    | none =>
      cases he : lastAssoc? fs "edges" with
      | none => rfl
      | some ej =>
        cases ej with
        | arr ys =>
          cases hel : lenientEdgeList ys with
          | none =>
            have : ys.all lenientEdgeOkB = false := by
              rw [← lenientEdgeList_isSome, hel]; rfl
            simp_all
          | some es =>
            have : ys.all lenientEdgeOkB = true := by
              rw [← lenientEdgeList_isSome, hel]; rfl
            simp_all
        | null => rfl
        | bool b => rfl
        | num n => rfl
        | str s => rfl
        | obj gs => rfl
    | some nj =>
      cases nj with
      | arr xs =>
        cases hnl : lenientNodeList xs with
        | none =>
          have : xs.all lenientNodeOkB = false := by
            rw [← lenientNodeList_isSome, hnl]; rfl
          simp_all
        | some ns =>
          have hxs : xs.all lenientNodeOkB = true := by
            rw [← lenientNodeList_isSome, hnl]; rfl
          cases he : lastAssoc? fs "edges" with
          | none => simp_all
          | some ej =>
            cases ej with
            | arr ys =>
              cases hel : lenientEdgeList ys with
              | none =>
                have : ys.all lenientEdgeOkB = false := by
                  rw [← lenientEdgeList_isSome, hel]; rfl
                simp_all
              | some es =>
                have : ys.all lenientEdgeOkB = true := by
                  rw [← lenientEdgeList_isSome, hel]; rfl
                simp_all
            | null => simp_all
            | bool b => simp_all
            | num n => simp_all
            | str s => simp_all
            | obj gs => simp_all
      | null => rfl
      | bool b => rfl
      | num n => rfl
      | str s => rfl
      | obj gs => rfl
  | null => rfl
  | bool b => rfl
  | num n => rfl
  | str s => rfl
  | arr xs => rfl

/-!
## Claims about the lenient coercion stage
-/

/-- Claim C3 (amended): the lenient stage succeeds exactly when the value
is an object whose `nodes`/`edges` fields are absent or arrays of
admissible elements (objects with a string-or-number id and optional
string-or-number alias fields for nodes; objects with optional
string-or-number endpoint fields for edges) — so it can fail on an
object with arrayed fields when an element is inadmissible; on success
the output is exactly the coerced element lists with nodes of empty id
or label and edges of empty endpoints filtered out, and an empty result
is valid output. -/
theorem c3_lenient_stage :
    (∀ v : Json, (lenientDiagramParse v).isSome = lenientShapeOk v) ∧
      (∀ (v : Json) (p : List DiagramNode × List DiagramEdge),
        lenientRawParts v = some p →
        lenientDiagramParse v =
          some { nodes := p.1.filter nodeKeep, edges := p.2.filter edgeKeep }) ∧
      (∀ (v : Json) (d : Diagram), lenientDiagramParse v = some d →
        (∀ n ∈ d.nodes, ¬n.id = "" ∧ ¬n.label = "") ∧
        (∀ e ∈ d.edges, ¬e.fromId = "" ∧ ¬e.toId = "")) := by
  refine ⟨?_, ?_, ?_⟩
  · intro v
    unfold lenientDiagramParse
    rw [← lenientRawParts_isSome]
    cases lenientRawParts v <;> rfl
  · intro v p h
    unfold lenientDiagramParse
    rw [h]
    rfl
  · intro v d h
    unfold lenientDiagramParse at h
    cases hr : lenientRawParts v with
    | none => rw [hr] at h; exact absurd h (by simp)
    | some p =>
      rw [hr] at h
      simp only [Option.map_some', Option.some.injEq] at h
      subst h
      constructor
      · intro n hn
        have := List.of_mem_filter hn
        simp only [nodeKeep, Bool.and_eq_true, Bool.not_eq_true',
          beq_eq_false_iff_ne, ne_eq] at this
        exact this
      · intro e he
        have := List.of_mem_filter he
        simp only [edgeKeep, Bool.and_eq_true, Bool.not_eq_true',
          beq_eq_false_iff_ne, ne_eq] at this
        exact this

/-- Claim C3 counterexample: an object whose `nodes` and `edges` fields
are both arrays, on which the stage nevertheless fails (the single node
element has no id), refuting "fails only when the value is not an object
with optionally-arrayed nodes/edges fields". -/
theorem c3_counterexample :
    lenientDiagramParse c3cex = none ∧
      (∃ fs, c3cex = Json.obj fs ∧
        (∃ xs, lastAssoc? fs "nodes" = some (Json.arr xs)) ∧
        (∃ ys, lastAssoc? fs "edges" = some (Json.arr ys))) :=
  ⟨rfl, ⟨[("nodes", Json.arr [Json.obj [("label", Json.str "A")]]),
    ("edges", Json.arr [])], rfl, ⟨[Json.obj [("label", Json.str "A")]], rfl⟩,
    ⟨[], rfl⟩⟩⟩

/-- Claim C3 witness: a value with one discardable node (empty id), one
keepable node, and one discardable edge (empty `to`); the stage succeeds
and filters exactly those. -/
theorem c3_lenient_stage_witness :
    lenientRawParts (Json.obj [("nodes", Json.arr [Json.obj [("id", Json.str "")],
        Json.obj [("id", Json.str "a"), ("label", Json.str "A")]]),
      ("edges", Json.arr [Json.obj [("from", Json.str "a"), ("to", Json.str "")]])]) =
        some ([{ id := "", label := "" }, { id := "a", label := "A" }],
          [{ fromId := "a", toId := "" }]) ∧
      lenientDiagramParse (Json.obj [("nodes", Json.arr [Json.obj [("id", Json.str "")],
          Json.obj [("id", Json.str "a"), ("label", Json.str "A")]]),
        ("edges", Json.arr [Json.obj [("from", Json.str "a"), ("to", Json.str "")]])]) =
        some { nodes := [{ id := "a", label := "A" }], edges := [] } :=
  ⟨rfl,
    c3_lenient_stage.2.1 _
      ([{ id := "", label := "" }, { id := "a", label := "A" }],
        [{ fromId := "a", toId := "" }]) rfl⟩

/-!
## Helper lemmas: alias pickers
-/

theorem jsOrStr_empty_right (a : String) : jsOrStr a "" = a := by
  unfold jsOrStr
  split <;> simp_all

theorem jsOr_presentNonEmpty (fs : List (String × Json)) (k : String)
    (o : Option String) (rest : String) (h : optCoerce fs k = some o) :
    jsOrStr (optPart o) rest =
      (match presentNonEmpty fs k with
       | some s => s
       | none => rest) := by
  have hb : (lastAssoc? fs k).bind coerceStr = o := by
    unfold optCoerce at h
    cases hl : lastAssoc? fs k with
    | none =>
      rw [hl] at h
      simp only [Option.some.injEq] at h
      simp [← h]
    | some j =>
      rw [hl] at h
      dsimp only at h
      cases hc : coerceStr j with
      | none => rw [hc] at h; exact absurd h (by simp)
      | some s =>
        rw [hc] at h
        simp only [Option.map_some', Option.some.injEq] at h
        simp [hc, h]
  unfold presentNonEmpty
  rw [hb]
  cases o with
  | none => rfl
  | some s =>
    by_cases hs : s = ""
    · subst hs; simp [jsOrStr, optPart]
    · simp [jsOrStr, optPart, hs]

/-- Claim C4: for every node object accepted by the lenient node schema,
the resulting label is the first present-and-non-empty value among
label, name, text, title (numbers coerced to strings), falling back to
the node's own id; edge endpoints take from/to first, then
source/target; and the claim's concrete aliasing example holds. -/
theorem c4_alias_order :
    (∀ (fs : List (String × Json)) (n : DiagramNode),
        lenientNodeParse (Json.obj fs) = some n →
        n.label = specLabelPick fs n.id) ∧
      (∀ (fs : List (String × Json)) (e : DiagramEdge),
        lenientEdgeParse (Json.obj fs) = some e →
        e.fromId = specEndpoint fs "from" "source" ∧
        e.toId = specEndpoint fs "to" "target") ∧
      lenientDiagramParse c4json =
        some { nodes := [{ id := "x", label := "X Node" }],
               edges := [{ fromId := "x", toId := "x" }] } := by
  refine ⟨?_, ?_, rfl⟩
  · intro fs n h
    simp only [lenientNodeParse] at h
    cases hid : lastAssoc? fs "id" with
    | none => rw [hid] at h; exact absurd h (by simp)
    | some idJ =>
      rw [hid] at h
      dsimp only at h
      cases hci : coerceStr idJ with
      | none => rw [hci] at h; exact absurd h (by simp)
      | some i =>
        rw [hci] at h
        dsimp only at h
        cases hl : optCoerce fs "label" with
        | none => rw [hl] at h; exact absurd h (by simp)
        | some labelO =>
          rw [hl] at h
          dsimp only at h
          cases hn : optCoerce fs "name" with
          | none => rw [hn] at h; exact absurd h (by simp)
          | some nameO =>
            cases ht : optCoerce fs "text" with
            | none => rw [hn, ht] at h; exact absurd h (by simp)
            | some textO =>
              cases hti : optCoerce fs "title" with
              | none => rw [hn, ht, hti] at h; exact absurd h (by simp)
              | some titleO =>
                rw [hn, ht, hti] at h
                dsimp only at h
                simp only [Option.some.injEq] at h
                subst h
                simp only
                unfold specLabelPick
                rw [jsOr_presentNonEmpty fs "label" labelO _ hl]
                cases presentNonEmpty fs "label" with
                | some s => rfl
                | none =>
                  simp only
                  rw [jsOr_presentNonEmpty fs "name" nameO _ hn]
                  cases presentNonEmpty fs "name" with
                  | some s => rfl
                  | none =>
                    simp only
                    rw [jsOr_presentNonEmpty fs "text" textO _ ht]
                    cases presentNonEmpty fs "text" with
                    | some s => rfl
                    | none =>
                      simp only
                      rw [jsOr_presentNonEmpty fs "title" titleO _ hti]
  · intro fs e h
    simp only [lenientEdgeParse] at h
    cases hf : optCoerce fs "from" with
    | none => rw [hf] at h; exact absurd h (by simp)
    | some fromO =>
      cases hto : optCoerce fs "to" with
      | none => rw [hf, hto] at h; exact absurd h (by simp)
      | some toO =>
        cases hs : optCoerce fs "source" with
        | none => rw [hf, hto, hs] at h; exact absurd h (by simp)
        | some sourceO =>
          cases hta : optCoerce fs "target" with
          | none => rw [hf, hto, hs, hta] at h; exact absurd h (by simp)
          | some targetO =>
            rw [hf, hto, hs, hta] at h
            dsimp only at h
            simp only [Option.some.injEq] at h
            subst h
            constructor
            · simp only
              unfold specEndpoint
              rw [← jsOrStr_empty_right (optPart sourceO),
                jsOr_presentNonEmpty fs "source" sourceO "" hs,
                jsOr_presentNonEmpty fs "from" fromO _ hf]
            · simp only
              unfold specEndpoint
              rw [← jsOrStr_empty_right (optPart targetO),
                jsOr_presentNonEmpty fs "target" targetO "" hta,
                jsOr_presentNonEmpty fs "to" toO _ hto]

/-- Claim C4 witness: the node object `(id: x, name: X Node)` — the
lenient parse produces label `X Node` and the spec-side alias picker
agrees; also the edge object `(source: x, target: x)`. -/
theorem c4_alias_order_witness :
    lenientNodeParse (Json.obj [("id", Json.str "x"),
        ("name", Json.str "X Node")]) =
      some { id := "x", label := "X Node" } ∧
      specLabelPick [("id", Json.str "x"), ("name", Json.str "X Node")] "x" =
        "X Node" ∧
      lenientEdgeParse (Json.obj [("source", Json.str "x"),
          ("target", Json.str "x")]) =
        some { fromId := "x", toId := "x" } ∧
      specEndpoint [("source", Json.str "x"), ("target", Json.str "x")]
        "from" "source" = "x" :=
  ⟨rfl,
    (c4_alias_order.1 [("id", Json.str "x"), ("name", Json.str "X Node")]
      { id := "x", label := "X Node" } rfl).symm,
    rfl,
    ((c4_alias_order.2.1 [("source", Json.str "x"), ("target", Json.str "x")]
      { fromId := "x", toId := "x" } rfl).1).symm⟩
